import Mathlib

/-!
Verification of the LLMProvider repository: a provider-agnostic adapter layer
over LLM backend APIs.  The definitions below are shallow embeddings of the
TypeScript source:

* `src/core/types.ts`   — provider enum, configuration, response shapes
* `src/core/errors.ts`  — the typed error taxonomy
* `src/core/llm.ts`     — `detectProvider`, the `LLM` dispatcher, and the
                          convenience functions `generate` / `generateStructured`
* `src/providers/openai.ts` — the OpenAI adapter: schema normalization for
                          strict mode, response extraction, structured-output
                          parsing, and catch-clause error normalization

JSON values are modelled by a mutual inductive family `Json` / `JsonList` /
`JsonFields` (objects are ordered association lists, as JavaScript objects
preserve insertion order).  The mutation behaviour of the code (the deep copy
in `normalizeSchemaForStrictMode`, the shallow copy in `getConfig`) is
additionally modelled on an explicit heap of JavaScript object nodes.
-/

/-! ## JSON values (pure tree view) -/

mutual

inductive Json where
  | null : Json
  | bool (b : Bool) : Json
  | num (m : Int) (e : Int) : Json
  | str (s : String) : Json
  | arr (elems : JsonList) : Json
  | obj (fields : JsonFields) : Json

inductive JsonList where
  | nil : JsonList
  | cons (hd : Json) (tl : JsonList) : JsonList

inductive JsonFields where
  | nil : JsonFields
  | cons (key : String) (val : Json) (tl : JsonFields) : JsonFields

end

/-- First-occurrence association lookup, the semantics of JavaScript property
read on our ordered-field model of objects. -/
def jLookup : JsonFields → String → Option Json
  | JsonFields.nil, _ => none
  | JsonFields.cons k v tl, key => if k = key then some v else jLookup tl key

/-- Key-presence test, the semantics of the JavaScript `in` operator. -/
def hasField (l : JsonFields) (key : String) : Bool :=
  (jLookup l key).isSome

def fieldsAppend : JsonFields → JsonFields → JsonFields
  | JsonFields.nil, l2 => l2
  | JsonFields.cons k v tl, l2 => JsonFields.cons k v (fieldsAppend tl l2)

def jsonListGet : JsonList → Nat → Option Json
  | JsonList.nil, _ => none
  | JsonList.cons x _, 0 => some x
  | JsonList.cons _ tl, Nat.succ i => jsonListGet tl i

/-- JavaScript truthiness for JSON values: `null`, `false`, `0` and `""` are
falsy; objects and arrays (even empty ones) are truthy. -/
def jTruthy : Json → Bool
  | Json.null => false
  | Json.bool b => b
  | Json.num m _ => m != 0
  | Json.str s => s != ""
  | Json.arr _ => true
  | Json.obj _ => true

/-- Does the node declare `type: "object"`?  (`obj.type === 'object'` in the
source). -/
def isTypeObject (fields : JsonFields) : Bool :=
  match jLookup fields "type" with
  | some (Json.str s) => s = "object"
  | _ => false

/-! ## `normalizeSchemaForStrictMode` (src/providers/openai.ts, 82-111), pure view

The source deep-copies the schema with `JSON.parse(JSON.stringify(schema))` —
the identity on JSON-representable values — and then mutates the copy in
place with `processSchema`.  On the pure tree view the whole function is the
pure recursive transformation below.  The in-place-mutation aspect is modelled
separately on the heap (see `normalizeSchemaMut`).

`processSchema` on a node first appends `additionalProperties: false` when the
node has `type: "object"` and no `additionalProperties` key (JavaScript
property assignment appends new keys at the end), then recurses into the
values of `properties` (a `for key in` loop, which on an array value iterates
its indices), into `items` when truthy, and into the elements of
`anyOf`/`allOf`/`oneOf` when those are arrays.  `processSchema` on a non-object
(including arrays reached directly) does nothing, exactly as the source's
guard `typeof obj !== 'object' || obj === null` combined with the absence of
`type`/`properties`/`items`/union keys on array objects. -/

mutual

def processSchema : Json → Json
  | Json.obj fields =>
      Json.obj (fieldsAppend (processFields fields)
        (if isTypeObject fields && !(hasField fields "additionalProperties")
         then JsonFields.cons "additionalProperties" (Json.bool false) JsonFields.nil
         else JsonFields.nil))
  | j => j

def processFields : JsonFields → JsonFields
  | JsonFields.nil => JsonFields.nil
  | JsonFields.cons k v tl =>
      JsonFields.cons k
        (if k = "properties" then processProps v
         else if k = "items" then (if jTruthy v then processSchema v else v)
         else if k = "anyOf" || k = "allOf" || k = "oneOf" then processUnion v
         else v)
        (processFields tl)

def processProps : Json → Json
  | Json.obj pf => Json.obj (processPropFields pf)
  | Json.arr xs => Json.arr (processList xs)
  | j => j

def processPropFields : JsonFields → JsonFields
  | JsonFields.nil => JsonFields.nil
  | JsonFields.cons k v tl => JsonFields.cons k (processSchema v) (processPropFields tl)

def processUnion : Json → Json
  | Json.arr xs => Json.arr (processList xs)
  | j => j

def processList : JsonList → JsonList
  | JsonList.nil => JsonList.nil
  | JsonList.cons x tl => JsonList.cons (processSchema x) (processList tl)

end

/-- The per-key transformation the recursion applies to a field's value
(a named form of the conditional inside `processFields`, for stating
lemmas). -/
def fieldTransform (k : String) (v : Json) : Json :=
  if k = "properties" then processProps v
  else if k = "items" then (if jTruthy v then processSchema v else v)
  else if k = "anyOf" || k = "allOf" || k = "oneOf" then processUnion v
  else v

/-- `normalizeSchemaForStrictMode` from src/providers/openai.ts: deep copy
(`JSON.parse ∘ JSON.stringify`, the identity on the pure JSON tree) followed
by the in-place `processSchema` pass. -/
def normalizeSchemaForStrictMode (schema : Json) : Json :=
  processSchema schema

/-! ## Provider detection (src/core/llm.ts, 13-42) -/

inductive LLMProvider where
  | openai
  | anthropic
  | gemini
deriving DecidableEq, Repr

/-- The string value of the `LLMProvider` enum member (src/core/types.ts). -/
def providerStr : LLMProvider → String
  | LLMProvider.openai => "openai"
  | LLMProvider.anthropic => "anthropic"
  | LLMProvider.gemini => "gemini"

/-- `pat` is a prefix of `l` (character lists). -/
def startsWithL : List Char → List Char → Bool
  | [], _ => true
  | _ :: _, [] => false
  | p :: ps, c :: cs => p = c && startsWithL ps cs

/-- Substring containment on character lists, the semantics of
`String.prototype.includes`. -/
def containsL (pat : List Char) : List Char → Bool
  | [] => pat.isEmpty
  | c :: cs => startsWithL pat (c :: cs) || containsL pat cs

/-- `s.includes(pat)` on Lean strings. -/
def strContains (s pat : String) : Bool :=
  containsL pat.toList s.toList

/-- `model.toLowerCase()`: character-wise ASCII lower-casing (`Char.toLower`
maps `A`-`Z` to `a`-`z` and fixes everything else), written over the
character list so that it computes by kernel reduction. -/
def toLowerStr (s : String) : String :=
  String.mk (s.toList.map Char.toLower)

/-- The OpenAI-family marker disjunction of `detectProvider`. -/
def isOpenAIModel (m : String) : Bool :=
  strContains m "gpt" || strContains m "o1" || strContains m "o3" ||
  strContains m "davinci" || strContains m "curie" ||
  strContains m "babbage" || strContains m "ada"

/-- `detectProvider` from src/core/llm.ts: lower-case the identifier, test the
OpenAI markers, then `claude`, then `gemini`/`palm`, and fall back to openai
(the unknown-model branch also emits a non-fatal console warning, a side
effect outside the pure result). -/
def detectProvider (model : String) : LLMProvider :=
  let modelLower := toLowerStr model
  if isOpenAIModel modelLower then LLMProvider.openai
  else if strContains modelLower "claude" then LLMProvider.anthropic
  else if strContains modelLower "gemini" || strContains modelLower "palm" then
    LLMProvider.gemini
  else LLMProvider.openai

/-! ## Configuration (src/core/types.ts `LLMConfig`) and the dispatcher merge
(src/core/llm.ts `LLM.constructor`, 50-57)

Optional TypeScript fields are `Option`s.  Sampling parameters are rationals
(JavaScript numbers; no claim computes with them), `timeout` and `maxTokens`
are integers. -/

inductive LLMReasoning where
  | noneLevel
  | minimal
  | low
  | medium
  | high
deriving DecidableEq, Repr

structure LLMConfig where
  model : String
  provider : Option LLMProvider := none
  temperature : Option Rat := none
  maxTokens : Option Int := none
  schema : Option Json := none
  systemPrompt : Option String := none
  topP : Option Rat := none
  timeout : Option Int := none
  reasoning : Option LLMReasoning := none
  enableTracing : Option Bool := none
  traceMetadata : Option Json := none

/-- `DEFAULT_TIMEOUT` from src/core/llm.ts. -/
def DEFAULT_TIMEOUT : Int := 90000

/-- The `LLM` constructor's configuration merge:
`provider: config.provider || detectProvider(config.model)` (the enum's string
values are non-empty, so `||` is `getD` on the option),
`timeout: config.timeout || DEFAULT_TIMEOUT` (`||`, so an explicit `0` is
falsy and replaced by the default), and
`enableTracing: config.enableTracing ?? true` (nullish coalescing, so an
explicit `false` is kept).  All other fields are spread through unchanged. -/
def resolveConfig (config : LLMConfig) : LLMConfig :=
  { config with
    provider := some (config.provider.getD (detectProvider config.model)),
    timeout := some (match config.timeout with
                     | some t => if t = 0 then DEFAULT_TIMEOUT else t
                     | none => DEFAULT_TIMEOUT),
    enableTracing := some (config.enableTracing.getD true) }

/-! ## Error taxonomy (src/core/errors.ts)

Each error class is a record value; `name` is the class's `name` property. -/

/-- The fields of an arbitrary caught JavaScript value, as read by the catch
clause of `generateWithOpenAI` (`err.name`, `err.status`, `err.message`).
Thrown values that are not errors of this system's taxonomy (SDK errors,
`TypeError`s, strings, ...) are represented by which of those properties they
carry. -/
structure JsRaw where
  name : Option String := none
  status : Option Int := none
  message : Option String := none
deriving DecidableEq, Repr

structure LLMErrorS where
  name : String
  message : String
  statusCode : Int
  provider : Option LLMProvider := none
  code : Option String := none
  originalError : Option JsRaw := none
deriving DecidableEq, Repr

/-- `new LLMError({message, statusCode, provider, code, originalError})`. -/
def mkLLMError (message : String) (statusCode : Int) (provider : Option LLMProvider)
    (code : Option String) (originalError : Option JsRaw) : LLMErrorS :=
  { name := "LLMError", message, statusCode, provider, code, originalError }

/-- `new TimeoutError(provider, timeout)`: status 408, code TIMEOUT, message
echoing the timeout in milliseconds. -/
def mkTimeoutError (provider : LLMProvider) (timeout : Int) : LLMErrorS :=
  { name := "TimeoutError",
    message := "Request to " ++ providerStr provider ++ " timed out after " ++
               toString timeout ++ "ms",
    statusCode := 408,
    provider := some provider,
    code := some "TIMEOUT" }

/-- `new UnsupportedProviderError(provider)`: status 400, code
UNSUPPORTED_PROVIDER; the provider appears in the message only (the
constructor does not pass the `provider` field to the base class). -/
def mkUnsupportedProviderError (provider : String) : LLMErrorS :=
  { name := "UnsupportedProviderError",
    message := "Unsupported LLM provider: " ++ provider,
    statusCode := 400,
    code := some "UNSUPPORTED_PROVIDER" }

/-- A value caught by the adapter's catch clause: either an error of this
system's own taxonomy (`error instanceof LLMError`) or any other thrown
JavaScript value. -/
inductive CaughtError where
  | llm (e : LLMErrorS)
  | js (r : JsRaw)
deriving DecidableEq, Repr

/-- The catch clause of `generateWithOpenAI` (src/providers/openai.ts,
192-206): rethrow taxonomy errors unchanged; map `AbortError` to a
`TimeoutError` carrying `config.timeout ?? 90000`; wrap everything else as a
generic `LLMError` with the underlying message (`|| 'OpenAI generation
failed'`), the underlying status (`|| 500`), the openai tag, and the original
value as `originalError`. -/
def openaiCatch (timeout : Option Int) : CaughtError → LLMErrorS
  | CaughtError.llm e => e
  | CaughtError.js r =>
    if r.name = some "AbortError" then
      mkTimeoutError LLMProvider.openai (timeout.getD 90000)
    else
      mkLLMError
        (match r.message with
         | some m => if m = "" then "OpenAI generation failed" else m
         | none => "OpenAI generation failed")
        (match r.status with
         | some s => if s = 0 then 500 else s
         | none => 500)
        (some LLMProvider.openai) none (some r)

/-! ## Dispatcher routing (src/core/llm.ts `LLM.generate`, 64-72) -/

/-- The control-flow outcome of `LLM.generate`'s provider switch: either the
call is delegated to the OpenAI adapter with the resolved configuration, or —
for any other provider — an `UnsupportedProviderError` is thrown before any
request construction or backend interaction (no adapter is invoked and the
`failUnsupported` outcome carries no request). -/
inductive DispatchResult where
  | callOpenAI (config : LLMConfig)
  | failUnsupported (e : LLMErrorS)

/-- The provider switch of `LLM.generate` on the (constructor-resolved)
configuration.  The `default` branch stringifies the provider
(`this.config.provider as string`); an absent provider cannot occur after
`resolveConfig` but stringifies to "undefined" as in JavaScript. -/
def llmGenerateDispatch (config : LLMConfig) : DispatchResult :=
  match config.provider with
  | some LLMProvider.openai => DispatchResult.callOpenAI config
  | some p => DispatchResult.failUnsupported (mkUnsupportedProviderError (providerStr p))
  | none => DispatchResult.failUnsupported (mkUnsupportedProviderError "undefined")

/-! ## `JSON.parse` (used on the extracted text when a schema was requested)

A direct implementation of the JSON grammar (RFC 8259, which `JSON.parse`
implements): optional insignificant whitespace, the three literals, strings
with the standard escapes, numbers (no leading zeros, optional fraction and
exponent), arrays and objects, and rejection of trailing input.  Numbers are
kept as a decimal mantissa/exponent pair `Json.num m e` (meaning `m * 10^e`)
instead of converting to floating point; no claim compares numeric values.
Duplicate object keys follow JavaScript property-assignment semantics: the
first occurrence fixes the position, the last occurrence fixes the value.
Recursion over nesting depth is fuelled; `jsonParse` passes one unit of fuel
per input character, which is enough because every recursive step consumes at
least one character. -/

def isWsChar (c : Char) : Bool :=
  c = ' ' || c = '\t' || c = '\n' || c = '\r'

def skipWs : List Char → List Char
  | [] => []
  | c :: cs => if isWsChar c then skipWs cs else c :: cs

def digitVal (c : Char) : Option Nat :=
  if '0' ≤ c ∧ c ≤ '9' then some (c.toNat - '0'.toNat) else none

def isDigitC (c : Char) : Bool := (digitVal c).isSome

def hexVal (c : Char) : Option Nat :=
  if '0' ≤ c ∧ c ≤ '9' then some (c.toNat - '0'.toNat)
  else if 'a' ≤ c ∧ c ≤ 'f' then some (c.toNat - 'a'.toNat + 10)
  else if 'A' ≤ c ∧ c ≤ 'F' then some (c.toNat - 'A'.toNat + 10)
  else none

/-- Single-character string escapes of the JSON grammar. -/
def escChar (c : Char) : Option Char :=
  if c = '"' then some '"'
  else if c = '\\' then some '\\'
  else if c = '/' then some '/'
  else if c = 'b' then some (Char.ofNat 8)
  else if c = 'f' then some (Char.ofNat 12)
  else if c = 'n' then some '\n'
  else if c = 'r' then some '\r'
  else if c = 't' then some '\t'
  else none

/-- Parse the body of a JSON string after the opening quote; returns the
decoded characters and the input after the closing quote.  Unescaped control
characters are rejected. -/
def parseStrChars : List Char → Option (List Char × List Char)
  | [] => none
  | c :: cs =>
    if c = '"' then some ([], cs)
    else if c = '\\' then
      match cs with
      | [] => none
      | e :: cs2 =>
        if e = 'u' then
          match cs2 with
          | h1 :: h2 :: h3 :: h4 :: cs3 =>
            match hexVal h1, hexVal h2, hexVal h3, hexVal h4 with
            | some a, some b, some c3, some d =>
              (parseStrChars cs3).map
                (fun pr => (Char.ofNat (((a * 16 + b) * 16 + c3) * 16 + d) :: pr.1, pr.2))
            | _, _, _, _ => none
          | _ => none
        else
          match escChar e with
          | some ch => (parseStrChars cs2).map (fun pr => (ch :: pr.1, pr.2))
          | none => none
    else if c.toNat < 32 then none
    else (parseStrChars cs).map (fun pr => (c :: pr.1, pr.2))
termination_by cs => cs.length
decreasing_by all_goals simp_wf <;> omega

def takeDigits : List Char → List Nat × List Char
  | [] => ([], [])
  | c :: cs =>
    match digitVal c with
    | some d =>
      let pr := takeDigits cs
      (d :: pr.1, pr.2)
    | none => ([], c :: cs)

def digitsToNat (acc : Nat) : List Nat → Nat
  | [] => acc
  | d :: ds => digitsToNat (acc * 10 + d) ds

/-- Fraction part: `.` followed by at least one digit, or nothing. -/
def parseFrac : List Char → Option (List Nat × List Char)
  | '.' :: t =>
    match takeDigits t with
    | ([], _) => none
    | (ds, r) => some (ds, r)
  | cs => some ([], cs)

/-- Exponent part: `e`/`E`, optional sign, at least one digit, or nothing. -/
def parseExp : List Char → Option (Int × List Char)
  | c :: t =>
    if c = 'e' ∨ c = 'E' then
      let sp : Int × List Char :=
        match t with
        | '+' :: t2 => (1, t2)
        | '-' :: t2 => (-1, t2)
        | _ => (1, t)
      match takeDigits sp.2 with
      | ([], _) => none
      | (ds, r) => some (sp.1 * Int.ofNat (digitsToNat 0 ds), r)
    else some (0, c :: t)
  | [] => some (0, [])

/-- JSON number: optional minus, integer part without leading zeros, optional
fraction, optional exponent.  The result `Json.num m e` denotes `m * 10^e`. -/
def parseNumber (cs : List Char) : Option (Json × List Char) :=
  let sp : Bool × List Char :=
    match cs with
    | '-' :: t => (true, t)
    | _ => (false, cs)
  match takeDigits sp.2 with
  | ([], _) => none
  | (d :: ds, cs2) =>
    if d = 0 ∧ ds ≠ [] then none
    else
      match parseFrac cs2 with
      | none => none
      | some (fds, cs3) =>
        match parseExp cs3 with
        | none => none
        | some (ex, cs4) =>
          let mant : Nat := digitsToNat 0 (d :: ds ++ fds)
          let m : Int := if sp.1 then -(Int.ofNat mant) else Int.ofNat mant
          some (Json.num m (ex - Int.ofNat fds.length), cs4)

/-- Consume an expected literal tail (e.g. `rue` after `t`). -/
def dropLit : List Char → List Char → Option (List Char)
  | [], cs => some cs
  | l :: ls, c :: cs => if c = l then dropLit ls cs else none
  | _ :: _, [] => none

/-- JavaScript property assignment on the accumulated object: an existing key
keeps its position and takes the new value, a new key is appended. -/
def objInsert : JsonFields → String → Json → JsonFields
  | JsonFields.nil, k, v => JsonFields.cons k v JsonFields.nil
  | JsonFields.cons k' v' tl, k, v =>
    if k' = k then JsonFields.cons k v tl
    else JsonFields.cons k' v' (objInsert tl k v)

mutual

def parseVal : Nat → List Char → Option (Json × List Char)
  | 0, _ => none
  | Nat.succ fuel, cs =>
    match cs with
    | [] => none
    | c :: rest =>
      if c = '{' then
        match skipWs rest with
        | '}' :: r => some (Json.obj JsonFields.nil, r)
        | cs2 => parseMembers fuel cs2 JsonFields.nil
      else if c = '[' then
        match skipWs rest with
        | ']' :: r => some (Json.arr JsonList.nil, r)
        | cs2 => (parseElems fuel cs2).map (fun pr => (Json.arr pr.1, pr.2))
      else if c = '"' then
        (parseStrChars rest).map (fun pr => (Json.str (String.mk pr.1), pr.2))
      else if c = 't' then (dropLit ['r', 'u', 'e'] rest).map (fun r => (Json.bool true, r))
      else if c = 'f' then (dropLit ['a', 'l', 's', 'e'] rest).map (fun r => (Json.bool false, r))
      else if c = 'n' then (dropLit ['u', 'l', 'l'] rest).map (fun r => (Json.null, r))
      else if c = '-' ∨ isDigitC c then parseNumber (c :: rest)
      else none

/-- Object members after at least one member is required (position: start of a
member key, whitespace already skipped). -/
def parseMembers : Nat → List Char → JsonFields → Option (Json × List Char)
  | 0, _, _ => none
  | Nat.succ fuel, cs, acc =>
    match cs with
    | '"' :: rest =>
      match parseStrChars rest with
      | some (kcs, r1) =>
        match skipWs r1 with
        | ':' :: r2 =>
          match parseVal fuel (skipWs r2) with
          | some (v, r3) =>
            let acc2 := objInsert acc (String.mk kcs) v
            match skipWs r3 with
            | ',' :: r4 => parseMembers fuel (skipWs r4) acc2
            | '}' :: r4 => some (Json.obj acc2, r4)
            | _ => none
          | none => none
        | _ => none
      | none => none
    | _ => none

/-- Array elements after at least one element is required (position: start of
an element, whitespace already skipped). -/
def parseElems : Nat → List Char → Option (JsonList × List Char)
  | 0, _ => none
  | Nat.succ fuel, cs =>
    match parseVal fuel cs with
    | some (v, r1) =>
      match skipWs r1 with
      | ',' :: r2 =>
        (parseElems fuel (skipWs r2)).map (fun pr => (JsonList.cons v pr.1, pr.2))
      | ']' :: r2 => some (JsonList.cons v JsonList.nil, r2)
      | _ => none
    | none => none

end

/-- `JSON.parse`: a whole JSON text, surrounding whitespace allowed, trailing
input rejected; `none` models the thrown `SyntaxError`. -/
def jsonParse (s : String) : Option Json :=
  match parseVal (s.toList.length + 1) (skipWs s.toList) with
  | some (j, r) => if (skipWs r).isEmpty then some j else none
  | none => none

/-! ## The OpenAI adapter's response processing
(src/providers/openai.ts `generateWithOpenAI`, 151-206)

The backend invocation (`client.responses.create`) is the external
collaborator: it either returns a completion value or throws.  Everything the
adapter does with that outcome is pure and modelled below. -/

/-- One content part of a backend output item (`output_text`, `refusal`, ...). -/
inductive OutContent where
  | outputText (text : String)
  | refusalPart (reason : String)
deriving DecidableEq, Repr

/-- One item of the backend's `completion.output` list: a message item with
content parts, or any non-message item (function/tool call, reasoning, ...). -/
inductive OutItem where
  | message (content : List OutContent)
  | functionCall
  | reasoningItem
deriving DecidableEq, Repr

/-- Backend token accounting (`completion.usage`), already in the uniform
field order: the adapter maps `input_tokens`/`output_tokens`/`total_tokens`
to `inputTokens`/`outputTokens`/`totalTokens` one-to-one. -/
structure Usage where
  inputTokens : Int
  outputTokens : Int
  totalTokens : Int
deriving DecidableEq, Repr

structure Completion where
  output : List OutItem
  usage : Option Usage
deriving DecidableEq, Repr

/-- The uniform `LLMResponse` (src/core/types.ts). -/
structure LLMResponse where
  content : String
  provider : LLMProvider
  model : String
  usage : Option Usage
  structuredOutput : Option Json

/-- The raw `TypeError` thrown by `completion.output[0].content[0].type` when
a message item has an empty `content` array (`content[0]` is `undefined`);
it carries no HTTP status. -/
def typeErrorRaw : JsRaw :=
  { name := some "TypeError",
    message := some "Cannot read properties of undefined (reading 'type')" }

/-- The try-block body of `generateWithOpenAI` after the backend returned a
completion: require `output[0]?.type === 'message'` and
`output[0].content[0].type === 'output_text'`; otherwise throw the generic
"Unsupported OpenAI response format" `LLMError` (status 500, openai) — except
that a message item with an empty content list makes the `content[0].type`
access itself throw a `TypeError`.  On success, attempt `JSON.parse` of the
content when a schema was requested and the content is truthy, swallowing a
parse failure (`structuredOutput` stays unset), and assemble the response. -/
def processCompletion (config : LLMConfig) (completion : Completion) :
    Except CaughtError LLMResponse :=
  match completion.output.get? 0 with
  | some (OutItem.message content) =>
    match content.get? 0 with
    | some (OutContent.outputText text) =>
      Except.ok
        { content := text,
          provider := LLMProvider.openai,
          model := config.model,
          usage := completion.usage,
          structuredOutput :=
            if config.schema.isSome ∧ text ≠ "" then jsonParse text else none }
    | some _ =>
      Except.error (CaughtError.llm
        (mkLLMError "Unsupported OpenAI response format" 500 (some LLMProvider.openai)
          none none))
    | none => Except.error (CaughtError.js typeErrorRaw)
  | _ =>
    Except.error (CaughtError.llm
      (mkLLMError "Unsupported OpenAI response format" 500 (some LLMProvider.openai)
        none none))

/-- The try/catch of `generateWithOpenAI` around the backend invocation and
the response processing: the invocation outcome is either a thrown value or a
completion; any throw (from the backend or from the try-block body) is
normalized by the catch clause `openaiCatch`. -/
def openaiHandleOutcome (config : LLMConfig) (outcome : Except CaughtError Completion) :
    Except LLMErrorS LLMResponse :=
  match outcome with
  | Except.error e => Except.error (openaiCatch config.timeout e)
  | Except.ok completion =>
    match processCompletion config completion with
    | Except.ok r => Except.ok r
    | Except.error e => Except.error (openaiCatch config.timeout e)

/-- `response.structuredOutput ?? {}` in `generateStructured`
(src/core/llm.ts, 124): nullish coalescing replaces both an unset field and a
parsed JSON `null` by the empty object. -/
def generateStructuredResult (r : LLMResponse) : Json :=
  match r.structuredOutput with
  | none => Json.obj JsonFields.nil
  | some Json.null => Json.obj JsonFields.nil
  | some j => j

/-! ## Convenience functions (src/core/llm.ts, 98-125)

`generate(model, prompt, options)` builds `createLLM({ model, ...options })`;
`generateStructured(model, prompt, schema, options)` builds
`createLLM({ model, schema, ...options })`.  The options bag is a
`Partial<LLMConfig>`; a field present in it is spread *after* the positional
fields and therefore overrides them. -/

structure LLMOptions where
  model : Option String := none
  provider : Option LLMProvider := none
  temperature : Option Rat := none
  maxTokens : Option Int := none
  schema : Option Json := none
  systemPrompt : Option String := none
  topP : Option Rat := none
  timeout : Option Int := none
  reasoning : Option LLMReasoning := none
  enableTracing : Option Bool := none
  traceMetadata : Option Json := none

/-- The object literal `{ model, ...options }` of `generate`. -/
def generateHelperConfig (model : String) (options : LLMOptions) : LLMConfig :=
  { model := options.model.getD model,
    provider := options.provider,
    temperature := options.temperature,
    maxTokens := options.maxTokens,
    schema := options.schema,
    systemPrompt := options.systemPrompt,
    topP := options.topP,
    timeout := options.timeout,
    reasoning := options.reasoning,
    enableTracing := options.enableTracing,
    traceMetadata := options.traceMetadata }

/-- The object literal `{ model, schema, ...options }` of
`generateStructured`. -/
def generateStructuredHelperConfig (model : String) (schema : Json)
    (options : LLMOptions) : LLMConfig :=
  { generateHelperConfig model options with
    schema := some (options.schema.getD schema) }

/-! ## Heap model of JavaScript objects

The claims about mutation (`getConfig` returning a copy, schema normalization
never mutating the caller's input) are about object *references*, which the
pure tree view cannot express.  Here JavaScript values are primitives or
references into a heap of object/array nodes; a heap is a list of nodes
addressed by position, and allocation appends. -/

inductive JsPrim where
  | nullv
  | boolv (b : Bool)
  | numv (m : Int) (e : Int)
  | strv (s : String)
deriving DecidableEq, Repr

inductive JsVal where
  | prim (p : JsPrim)
  | ref (a : Nat)
deriving DecidableEq, Repr

inductive JNode where
  | jobj (fields : List (String × JsVal))
  | jarr (elems : List JsVal)
deriving DecidableEq, Repr

abbrev JHeap := List JNode

def heapGet : JHeap → Nat → Option JNode
  | [], _ => none
  | nd :: _, 0 => some nd
  | _ :: t, Nat.succ a => heapGet t a

def setNode : JHeap → Nat → JNode → JHeap
  | [], _, _ => []
  | _ :: t, 0, nd => nd :: t
  | x :: t, Nat.succ a, nd => x :: setNode t a nd

/-- First-occurrence property read on a heap object's field list. -/
def lookupV : List (String × JsVal) → String → Option JsVal
  | [], _ => none
  | (k, v) :: tl, key => if k = key then some v else lookupV tl key

/-- JavaScript property assignment: existing key keeps its position, new key
is appended. -/
def setKey : List (String × JsVal) → String → JsVal → List (String × JsVal)
  | [], k, v => [(k, v)]
  | (k', v') :: tl, k, v =>
    if k' = k then (k, v) :: tl else (k', v') :: setKey tl k v

/-- `node.k = v` on the object at address `a` (no-op on arrays or dangling
addresses; the source only assigns on plain objects). -/
def setField (h : JHeap) (a : Nat) (k : String) (v : JsVal) : JHeap :=
  match heapGet h a with
  | some (JNode.jobj fields) => setNode h a (JNode.jobj (setKey fields k v))
  | _ => h

def getFieldOf (h : JHeap) (a : Nat) (k : String) : Option JsVal :=
  match heapGet h a with
  | some (JNode.jobj fields) => lookupV fields k
  | _ => none

def valTruthyM : JsVal → Bool
  | JsVal.prim JsPrim.nullv => false
  | JsVal.prim (JsPrim.boolv b) => b
  | JsVal.prim (JsPrim.numv m _) => m != 0
  | JsVal.prim (JsPrim.strv s) => s != ""
  | JsVal.ref _ => true

def isTypeObjectV (fields : List (String × JsVal)) : Bool :=
  match lookupV fields "type" with
  | some (JsVal.prim (JsPrim.strv s)) => s = "object"
  | _ => false

/-! `readVal`: the `JSON.stringify` read-out of a heap value as a pure JSON
tree (fuelled; `none` models the exception stringify throws on circular
structures, which cannot exhaust any finite fuel bound on acyclic data). -/
mutual

def readVal : Nat → JHeap → JsVal → Option Json
  | _, _, JsVal.prim JsPrim.nullv => some Json.null
  | _, _, JsVal.prim (JsPrim.boolv b) => some (Json.bool b)
  | _, _, JsVal.prim (JsPrim.numv m e) => some (Json.num m e)
  | _, _, JsVal.prim (JsPrim.strv s) => some (Json.str s)
  | 0, _, JsVal.ref _ => none
  | Nat.succ fuel, h, JsVal.ref a =>
    match heapGet h a with
    | some (JNode.jobj fields) => (readFlds fuel h fields).map Json.obj
    | some (JNode.jarr xs) => (readElems fuel h xs).map Json.arr
    | none => none

def readFlds : Nat → JHeap → List (String × JsVal) → Option JsonFields
  | _, _, [] => some JsonFields.nil
  | 0, _, _ :: _ => none
  | Nat.succ fuel, h, (k, v) :: tl =>
    match readVal fuel h v, readFlds fuel h tl with
    | some j, some rest => some (JsonFields.cons k j rest)
    | _, _ => none

def readElems : Nat → JHeap → List JsVal → Option JsonList
  | _, _, [] => some JsonList.nil
  | 0, _, _ :: _ => none
  | Nat.succ fuel, h, v :: tl =>
    match readVal fuel h v, readElems fuel h tl with
    | some j, some rest => some (JsonList.cons j rest)
    | _, _ => none

end

/-! `allocJson`: the `JSON.parse` materialization of a pure JSON tree as fresh
heap nodes: every allocated node is appended, so the result only extends the
input heap and every reference it creates points at or above the input heap's
length. -/
mutual

def allocJson : JHeap → Json → JHeap × JsVal
  | h, Json.null => (h, JsVal.prim JsPrim.nullv)
  | h, Json.bool b => (h, JsVal.prim (JsPrim.boolv b))
  | h, Json.num m e => (h, JsVal.prim (JsPrim.numv m e))
  | h, Json.str s => (h, JsVal.prim (JsPrim.strv s))
  | h, Json.arr xs =>
    let pr := allocElems h xs
    (pr.1 ++ [JNode.jarr pr.2], JsVal.ref pr.1.length)
  | h, Json.obj fs =>
    let pr := allocFlds h fs
    (pr.1 ++ [JNode.jobj pr.2], JsVal.ref pr.1.length)

def allocElems : JHeap → JsonList → JHeap × List JsVal
  | h, JsonList.nil => (h, [])
  | h, JsonList.cons x tl =>
    let pr1 := allocJson h x
    let pr2 := allocElems pr1.1 tl
    (pr2.1, pr1.2 :: pr2.2)

def allocFlds : JHeap → JsonFields → JHeap × List (String × JsVal)
  | h, JsonFields.nil => (h, [])
  | h, JsonFields.cons k x tl =>
    let pr1 := allocJson h x
    let pr2 := allocFlds pr1.1 tl
    (pr2.1, (k, pr1.2) :: pr2.2)

end

/-! ### `processSchema` as in-place heap mutation

The only write the source performs is `obj.additionalProperties = false`; the
rest is traversal.  The traversal re-reads the current object before each
step, exactly as the JavaScript property reads do. -/

/-- The single mutation step: `if (obj.type === 'object' &&
!('additionalProperties' in obj)) obj.additionalProperties = false`. -/
def stepClose (h : JHeap) (a : Nat) : JHeap :=
  match heapGet h a with
  | some (JNode.jobj fields) =>
    if isTypeObjectV fields && (lookupV fields "additionalProperties").isNone then
      setField h a "additionalProperties" (JsVal.prim (JsPrim.boolv false))
    else h
  | _ => h

/-- The values visited by `for (const key in obj.properties)
processSchema(obj.properties[key])`: requires `obj.properties` to be truthy
and of object type (a reference); on an object node the field values, on an
array node the elements (`for in` over an array iterates its indices). -/
def propsTargets (h : JHeap) (a : Nat) : List JsVal :=
  match getFieldOf h a "properties" with
  | some (JsVal.ref pa) =>
    match heapGet h pa with
    | some (JNode.jobj pf) => pf.map Prod.snd
    | some (JNode.jarr xs) => xs
    | none => []
  | _ => []

/-- The value visited by `if (obj.items) processSchema(obj.items)`. -/
def itemsTarget (h : JHeap) (a : Nat) : List JsVal :=
  match getFieldOf h a "items" with
  | some v => if valTruthyM v then [v] else []
  | none => []

/-- The values visited by `if (Array.isArray(obj[key]))
obj[key].forEach(processSchema)` for a union key. -/
def unionTargets (h : JHeap) (a : Nat) (key : String) : List JsVal :=
  match getFieldOf h a key with
  | some (JsVal.ref ua) =>
    match heapGet h ua with
    | some (JNode.jarr xs) => xs
    | _ => []
  | _ => []

mutual

/-- `processSchema(obj)` as heap mutation (fuelled; fuel exhaustion leaves the
heap unchanged, which never occurs on the acyclic structures `JSON.parse`
produces when the fuel bound is generous). -/
def processSchemaMut : Nat → JHeap → JsVal → JHeap
  | _, h, JsVal.prim _ => h
  | 0, h, JsVal.ref _ => h
  | Nat.succ fuel, h, JsVal.ref a =>
    match heapGet h a with
    | some (JNode.jobj _) =>
      let h1 := stepClose h a
      let h2 := processValsMut fuel h1 (propsTargets h1 a)
      let h3 := processValsMut fuel h2 (itemsTarget h2 a)
      let h4 := processValsMut fuel h3 (unionTargets h3 a "anyOf")
      let h5 := processValsMut fuel h4 (unionTargets h4 a "allOf")
      processValsMut fuel h5 (unionTargets h5 a "oneOf")
    | _ => h

def processValsMut : Nat → JHeap → List JsVal → JHeap
  | _, h, [] => h
  | 0, h, _ :: _ => h
  | Nat.succ fuel, h, v :: vs => processValsMut fuel (processSchemaMut fuel h v) vs

end

/-- `normalizeSchemaForStrictMode` on the heap:
`JSON.parse(JSON.stringify(schema))` (read out the caller's structure, then
allocate an entirely fresh copy) followed by the in-place `processSchema` on
the copy.  `none` models the stringify exception on circular input, thrown
before anything is mutated. -/
def normalizeSchemaMut (fuel : Nat) (h : JHeap) (v : JsVal) : Option (JHeap × JsVal) :=
  match readVal fuel h v with
  | none => none
  | some j =>
    let pr := allocJson h j
    some (processSchemaMut fuel pr.1 pr.2, pr.2)

/-! ### `getConfig` (src/core/llm.ts, 77-79) on the heap -/

/-- `getConfig(): return { ...this.config }` — a *shallow* copy: a fresh
object node whose field list is that of the stored configuration object, so
nested values (schema, traceMetadata) remain shared references. -/
def getConfigShallow (h : JHeap) (c : Nat) : Option (JHeap × Nat) :=
  match heapGet h c with
  | some (JNode.jobj fields) => some (h ++ [JNode.jobj fields], h.length)
  | _ => none

/-- Read `h[a].k1.k2`, the dispatcher's (or a caller's) view of a nested
configuration value such as `config.traceMetadata.userId`. -/
def readPath2 (h : JHeap) (a : Nat) (k1 k2 : String) : Option JsVal :=
  match getFieldOf h a k1 with
  | some (JsVal.ref b) => getFieldOf h b k2
  | _ => none

/-! ## Sub-schema reachability

The claim about `normalizeSchemaForStrictMode` quantifies over every
sub-schema node reachable through `properties` values, `items`, and the
elements of `anyOf`/`allOf`/`oneOf`; a path of such steps addresses a node. -/

inductive SchemaStep where
  | propStep (name : String)
  | itemsStep
  | unionStep (key : String) (idx : Nat)

/-- One reachability step: the named `properties` value (when `properties` is
an object node), the `items` value, or the `idx`-th element of a union key's
array value. -/
def getChild (j : Json) : SchemaStep → Option Json
  | SchemaStep.propStep name =>
    match j with
    | Json.obj fields =>
      match jLookup fields "properties" with
      | some (Json.obj pf) => jLookup pf name
      | _ => none
    | _ => none
  | SchemaStep.itemsStep =>
    match j with
    | Json.obj fields => jLookup fields "items"
    | _ => none
  | SchemaStep.unionStep key idx =>
    if key = "anyOf" || key = "allOf" || key = "oneOf" then
      match j with
      | Json.obj fields =>
        match jLookup fields key with
        | some (Json.arr xs) => jsonListGet xs idx
        | _ => none
      | _ => none
    else none

/-- The sub-schema node addressed by a path of reachability steps. -/
def getNode (j : Json) : List SchemaStep → Option Json
  | [] => some j
  | st :: p =>
    match getChild j st with
    | some c => getNode c p
    | none => none

def objFieldsOf : Json → JsonFields
  | Json.obj fields => fields
  | _ => JsonFields.nil

/-- Is the first output item a message item whose first content part is plain
output text?  (The successful-extraction condition of the adapter.) -/
def firstIsTextMessage : List OutItem → Bool
  | OutItem.message (OutContent.outputText _ :: _) :: _ => true
  | _ => false

/-! ## Concrete example values used by witnesses and counterexamples -/

/-- A nested schema: object with an object-typed property `a`. -/
def exSchema : Json :=
  Json.obj (JsonFields.cons "type" (Json.str "object")
    (JsonFields.cons "properties"
      (Json.obj (JsonFields.cons "a"
        (Json.obj (JsonFields.cons "type" (Json.str "object") JsonFields.nil))
        JsonFields.nil))
      JsonFields.nil))

/-- The normalized node reachable at `properties.a` of `exSchema`. -/
def exM : Json :=
  Json.obj (JsonFields.cons "type" (Json.str "object")
    (JsonFields.cons "additionalProperties" (Json.bool false) JsonFields.nil))

/-- A heap holding a trace-metadata object at address 0 and a resolved
configuration object at address 1 whose `traceMetadata` field references it. -/
def cH5 : JHeap :=
  [JNode.jobj [("userId", JsVal.prim (JsPrim.strv "u1"))],
   JNode.jobj [("model", JsVal.prim (JsPrim.strv "gpt-4")),
               ("provider", JsVal.prim (JsPrim.strv "openai")),
               ("traceMetadata", JsVal.ref 0)]]

/-- The heap after `getConfig()` on `cH5`: the shallow copy lives at address 2
and shares the `traceMetadata` reference with the original. -/
def cH5b : JHeap :=
  cH5 ++ [JNode.jobj [("model", JsVal.prim (JsPrim.strv "gpt-4")),
                      ("provider", JsVal.prim (JsPrim.strv "openai")),
                      ("traceMetadata", JsVal.ref 0)]]

/-- A configuration requesting structured output. -/
def c7cfg : LLMConfig := { model := "gpt-4", schema := some (Json.obj JsonFields.nil) }

/-- A well-formed backend completion whose extracted text is the valid JSON
text `null`. -/
def c7completion : Completion :=
  { output := [OutItem.message [OutContent.outputText "null"]], usage := none }

/-- The adapter's response for `c7completion` under `c7cfg`. -/
def c7resp : LLMResponse :=
  { content := "null", provider := LLMProvider.openai, model := "gpt-4",
    usage := none, structuredOutput := some Json.null }

/-- A schema heap for the C6 witness: one object node `{type: "object"}`. -/
def cH6 : JHeap := [JNode.jobj [("type", JsVal.prim (JsPrim.strv "object"))]]

/-- The heap produced by `normalizeSchemaMut 10 cH6 (ref 0)`: the input node
is untouched and the normalized copy lives at address 1. -/
def cH6r : JHeap :=
  [JNode.jobj [("type", JsVal.prim (JsPrim.strv "object"))],
   JNode.jobj [("type", JsVal.prim (JsPrim.strv "object")),
               ("additionalProperties", JsVal.prim (JsPrim.boolv false))]]

/-! ## Heap invariants for the non-mutation proof

`allocJson` creates only nodes at or above the original heap length, and
`processSchemaMut` started on such a node reads and writes only that fresh
region; these predicates express the two facts. -/

/-- Every reference in the value points at or above `n`. -/
def valGe (n : Nat) : JsVal → Prop
  | JsVal.prim _ => True
  | JsVal.ref a => n ≤ a

def valsGe (n : Nat) (l : List JsVal) : Prop := ∀ v ∈ l, valGe n v

def fieldsGe (n : Nat) (l : List (String × JsVal)) : Prop := ∀ kv ∈ l, valGe n kv.2

def nodeGe (n : Nat) : JNode → Prop
  | JNode.jobj fields => fieldsGe n fields
  | JNode.jarr elems => valsGe n elems

/-- Every node stored at or above `n` references only addresses at or above
`n`: the region at or above `n` is closed. -/
def heapClosedGe (n : Nat) (h : JHeap) : Prop :=
  ∀ a nd, n ≤ a → heapGet h a = some nd → nodeGe n nd

/-- The two heaps agree at every address below `n`. -/
def sameBelow (n : Nat) (h h2 : JHeap) : Prop :=
  ∀ a, a < n → heapGet h2 a = heapGet h a

/-! # Theorems -/

/-- C2: `detectProvider` is total and deterministic (it is a Lean function
into the closed three-element `LLMProvider` type, so it never raises),
case-insensitive (it depends only on the lower-cased identifier), applies the
markers in priority order (OpenAI family first, then `claude`, then
`gemini`/`palm`) with openai as the no-match fallback, and maps the four
reference identifiers as specified. -/
theorem C2_detect_provider_contract (m1 m2 : String)
    (hci : toLowerStr m1 = toLowerStr m2) :
    detectProvider m1 = detectProvider m2 ∧
    detectProvider "gpt-4" = LLMProvider.openai ∧
    detectProvider "Claude-3-5-Sonnet" = LLMProvider.anthropic ∧
    detectProvider "gemini-pro" = LLMProvider.gemini ∧
    detectProvider "llama-70b" = LLMProvider.openai ∧
    (isOpenAIModel (toLowerStr m1) = true → detectProvider m1 = LLMProvider.openai) ∧
    (isOpenAIModel (toLowerStr m1) = false → strContains (toLowerStr m1) "claude" = true →
      detectProvider m1 = LLMProvider.anthropic) ∧
    (isOpenAIModel (toLowerStr m1) = false → strContains (toLowerStr m1) "claude" = false →
      (strContains (toLowerStr m1) "gemini" || strContains (toLowerStr m1) "palm") = true →
      detectProvider m1 = LLMProvider.gemini) ∧
    (isOpenAIModel (toLowerStr m1) = false → strContains (toLowerStr m1) "claude" = false →
      (strContains (toLowerStr m1) "gemini" || strContains (toLowerStr m1) "palm") = false →
      detectProvider m1 = LLMProvider.openai) := by
  refine ⟨by simp only [detectProvider, hci], by decide, by decide, by decide, by decide,
    ?_, ?_, ?_, ?_⟩
  · intro h1
    simp [detectProvider, h1]
  · intro h1 h2
    simp [detectProvider, h1, h2]
  · intro h1 h2 h3
    simp [detectProvider, h1, h2, h3]
  · intro h1 h2 h3
    simp only [Bool.or_eq_false_iff] at h3
    simp [detectProvider, h1, h2, h3.1, h3.2]

/-- Witness for C2 at concrete inputs: case-insensitivity on `GPT-4` vs
`gpt-4`, and the `gpt-4` table entry. -/
theorem C2_detect_provider_contract_witness :
    detectProvider "GPT-4" = detectProvider "gpt-4" ∧
    detectProvider "gpt-4" = LLMProvider.openai :=
  ⟨(C2_detect_provider_contract "GPT-4" "gpt-4" (by decide)).1,
   (C2_detect_provider_contract "GPT-4" "gpt-4" (by decide)).2.1⟩

/-- C3: the dispatcher-construction merge resolves provider (explicit else
detected), timeout (explicit-and-truthy else 90000; an explicit 0 is falsy
under `||` and replaced), and enableTracing (explicit boolean else true),
passes all other fields through unchanged, and is idempotent: resolving the
configuration read back from `getConfig()` (a value-equal copy) a second time
changes nothing. -/
theorem C3_config_merge_idempotent (c : LLMConfig) :
    resolveConfig (resolveConfig c) = resolveConfig c ∧
    (resolveConfig c).provider = some (c.provider.getD (detectProvider c.model)) ∧
    (c.timeout = none → (resolveConfig c).timeout = some 90000) ∧
    (∀ t, c.timeout = some t → t ≠ 0 → (resolveConfig c).timeout = some t) ∧
    (c.timeout = some 0 → (resolveConfig c).timeout = some 90000) ∧
    (c.enableTracing = none → (resolveConfig c).enableTracing = some true) ∧
    (∀ b, c.enableTracing = some b → (resolveConfig c).enableTracing = some b) ∧
    (resolveConfig c).model = c.model ∧
    (resolveConfig c).temperature = c.temperature ∧
    (resolveConfig c).maxTokens = c.maxTokens ∧
    (resolveConfig c).schema = c.schema ∧
    (resolveConfig c).systemPrompt = c.systemPrompt ∧
    (resolveConfig c).topP = c.topP ∧
    (resolveConfig c).reasoning = c.reasoning ∧
    (resolveConfig c).traceMetadata = c.traceMetadata := by
  refine ⟨?_, rfl, ?_, ?_, ?_, ?_, ?_, rfl, rfl, rfl, rfl, rfl, rfl, rfl, rfl⟩
  · rcases ht : c.timeout with _ | t
    · simp [resolveConfig, ht, DEFAULT_TIMEOUT]
    · by_cases h0 : t = 0 <;> simp [resolveConfig, ht, h0, DEFAULT_TIMEOUT]
  · intro h
    simp [resolveConfig, h, DEFAULT_TIMEOUT]
  · intro t ht h0
    simp [resolveConfig, ht, h0]
  · intro h
    simp [resolveConfig, h, DEFAULT_TIMEOUT]
  · intro h
    simp [resolveConfig, h]
  · intro b h
    simp [resolveConfig, h]

/-- Witness for C3 at a concrete configuration: the timeout defaults to 90000
and a second resolution is the identity. -/
theorem C3_config_merge_idempotent_witness :
    (resolveConfig { model := "gpt-4" }).timeout = some 90000 ∧
    resolveConfig (resolveConfig { model := "gpt-4" }) =
      resolveConfig { model := "gpt-4" } :=
  ⟨(C3_config_merge_idempotent { model := "gpt-4" }).2.2.1 rfl,
   (C3_config_merge_idempotent { model := "gpt-4" }).1⟩

/-- C4: the adapter's catch clause rethrows taxonomy errors unchanged, turns
a recognizable abort (`err.name === 'AbortError'`) into a `TimeoutError` with
status 408 whose message echoes the configured timeout (90000 when the
configuration's timeout is unset), and wraps every other thrown value as a
generic `LLMError` with the underlying message (or the fallback string), the
underlying status if present and truthy (else 500), the openai tag, and the
original value as `originalError`. -/
theorem C4_error_normalization (config : LLMConfig) (e : CaughtError) :
    (∀ le, e = CaughtError.llm le →
      openaiHandleOutcome config (Except.error e) = Except.error le) ∧
    (∀ r, e = CaughtError.js r → r.name = some "AbortError" →
      openaiHandleOutcome config (Except.error e) =
        Except.error (mkTimeoutError LLMProvider.openai (config.timeout.getD 90000)) ∧
      (mkTimeoutError LLMProvider.openai (config.timeout.getD 90000)).statusCode = 408 ∧
      (mkTimeoutError LLMProvider.openai (config.timeout.getD 90000)).message =
        "Request to openai timed out after " ++
          toString (config.timeout.getD 90000) ++ "ms" ∧
      (config.timeout = none →
        openaiHandleOutcome config (Except.error e) =
          Except.error (mkTimeoutError LLMProvider.openai 90000))) ∧
    (∀ r, e = CaughtError.js r → r.name ≠ some "AbortError" →
      openaiHandleOutcome config (Except.error e) =
        Except.error (mkLLMError
          (match r.message with
           | some m => if m = "" then "OpenAI generation failed" else m
           | none => "OpenAI generation failed")
          (match r.status with
           | some s => if s = 0 then 500 else s
           | none => 500)
          (some LLMProvider.openai) none (some r)) ∧
      (openaiCatch config.timeout e).name = "LLMError" ∧
      (openaiCatch config.timeout e).provider = some LLMProvider.openai ∧
      (openaiCatch config.timeout e).originalError = some r) := by
  refine ⟨?_, ?_, ?_⟩
  · rintro le rfl
    rfl
  · rintro r rfl hn
    refine ⟨?_, rfl, rfl, ?_⟩
    · simp [openaiHandleOutcome, openaiCatch, hn]
    · intro ht
      simp [openaiHandleOutcome, openaiCatch, hn, ht]
  · rintro r rfl hn
    refine ⟨?_, ?_, ?_, ?_⟩ <;>
      simp [openaiHandleOutcome, openaiCatch, hn, mkLLMError]

/-- Witness for C4: an `AbortError` thrown under a configuration with no
explicit timeout becomes the 90000 ms `TimeoutError`. -/
theorem C4_error_normalization_witness :
    openaiHandleOutcome { model := "gpt-4" }
        (Except.error (CaughtError.js { name := some "AbortError" })) =
      Except.error (mkTimeoutError LLMProvider.openai 90000) :=
  ((C4_error_normalization { model := "gpt-4" }
      (CaughtError.js { name := some "AbortError" })).2.1
    { name := some "AbortError" } rfl rfl).2.2.2 rfl

/-- C8: a resolved configuration whose provider is anthropic or gemini (no
registered adapter) makes `LLM.generate` fail with an
`UnsupportedProviderError` (status 400, code UNSUPPORTED_PROVIDER) whose
message carries the provider's string form; the `failUnsupported` dispatch
outcome is produced by the provider switch itself, before any request
construction or backend interaction. -/
theorem C8_unsupported_provider (c : LLMConfig) (p : LLMProvider)
    (hp : (resolveConfig c).provider = some p) (hne : p ≠ LLMProvider.openai) :
    llmGenerateDispatch (resolveConfig c) =
      DispatchResult.failUnsupported (mkUnsupportedProviderError (providerStr p)) ∧
    (mkUnsupportedProviderError (providerStr p)).statusCode = 400 ∧
    (mkUnsupportedProviderError (providerStr p)).name = "UnsupportedProviderError" ∧
    (mkUnsupportedProviderError (providerStr p)).message =
      "Unsupported LLM provider: " ++ providerStr p ∧
    (mkUnsupportedProviderError (providerStr p)).code = some "UNSUPPORTED_PROVIDER" := by
  refine ⟨?_, rfl, rfl, rfl, rfl⟩
  cases p with
  | openai => exact absurd rfl hne
  | anthropic => simp [llmGenerateDispatch, hp]
  | gemini => simp [llmGenerateDispatch, hp]

/-- Witness for C8: a configuration whose model detects to anthropic fails
with the anthropic-tagged `UnsupportedProviderError`. -/
theorem C8_unsupported_provider_witness :
    llmGenerateDispatch (resolveConfig { model := "claude-3" }) =
      DispatchResult.failUnsupported (mkUnsupportedProviderError "anthropic") :=
  (C8_unsupported_provider { model := "claude-3" } LLMProvider.anthropic
    (by decide) (by decide)).1

/-- C10: the options bag is spread after the positional arguments, so a
`model` key in the options overrides the positional model in both
convenience functions, and a `schema` key in the options overrides
`generateStructured`'s positional schema; absent options keys leave the
positional values in place, and the override survives dispatcher
construction. -/
theorem C10_options_spread (model : String) (schema : Json) (o : LLMOptions) :
    (∀ m', o.model = some m' →
      (generateHelperConfig model o).model = m' ∧
      (generateStructuredHelperConfig model schema o).model = m' ∧
      (resolveConfig (generateHelperConfig model o)).model = m') ∧
    (o.model = none →
      (generateHelperConfig model o).model = model ∧
      (generateStructuredHelperConfig model schema o).model = model) ∧
    (∀ s', o.schema = some s' →
      (generateStructuredHelperConfig model schema o).schema = some s') ∧
    (o.schema = none →
      (generateStructuredHelperConfig model schema o).schema = some schema) ∧
    (generateHelperConfig model o).schema = o.schema := by
  refine ⟨?_, ?_, ?_, ?_, rfl⟩
  · intro m' hm
    refine ⟨?_, ?_, ?_⟩ <;>
      simp [generateHelperConfig, generateStructuredHelperConfig, resolveConfig, hm]
  · intro hm
    constructor <;> simp [generateHelperConfig, generateStructuredHelperConfig, hm]
  · intro s' hs
    simp [generateHelperConfig, generateStructuredHelperConfig, hs]
  · intro hs
    simp [generateHelperConfig, generateStructuredHelperConfig, hs]

/-- Witness for C10: an options bag carrying `model := "o3-mini"` overrides
the positional `"gpt-4"`. -/
theorem C10_options_spread_witness :
    (generateHelperConfig "gpt-4" { model := some "o3-mini" }).model = "o3-mini" ∧
    (generateStructuredHelperConfig "gpt-4" Json.null
        { model := some "o3-mini" }).model = "o3-mini" :=
  ⟨((C10_options_spread "gpt-4" Json.null { model := some "o3-mini" }).1
      "o3-mini" rfl).1,
   ((C10_options_spread "gpt-4" Json.null { model := some "o3-mini" }).1
      "o3-mini" rfl).2.1⟩

/-- C9: any completion whose first output item is not a message item with a
leading plain-text content part — empty output, tool-call or reasoning items,
refusal-only content, or a message with an empty content list (where the
`content[0].type` access itself throws a `TypeError` that the catch clause
wraps) — makes the adapter fail with a generic `LLMError`, status 500, tagged
openai; it never returns a `Response`. -/
theorem C9_unsupported_response_shape (config : LLMConfig) (completion : Completion)
    (hbad : firstIsTextMessage completion.output = false) :
    ∃ e, openaiHandleOutcome config (Except.ok completion) = Except.error e ∧
      e.statusCode = 500 ∧ e.provider = some LLMProvider.openai ∧
      e.name = "LLMError" := by
  rcases completion with ⟨output, usage⟩
  dsimp at hbad
  match output, hbad with
  | [], _ => exact ⟨_, rfl, rfl, rfl, rfl⟩
  | OutItem.functionCall :: _, _ => exact ⟨_, rfl, rfl, rfl, rfl⟩
  | OutItem.reasoningItem :: _, _ => exact ⟨_, rfl, rfl, rfl, rfl⟩
  | OutItem.message [] :: _, _ => exact ⟨_, rfl, rfl, rfl, rfl⟩
  | OutItem.message (OutContent.refusalPart _ :: _) :: _, _ =>
    exact ⟨_, rfl, rfl, rfl, rfl⟩
  | OutItem.message (OutContent.outputText _ :: _) :: _, h => simp [firstIsTextMessage] at h

/-- Witness for C9: the empty-output completion fails with the 500
openai-tagged generic error. -/
theorem C9_unsupported_response_shape_witness :
    ∃ e, openaiHandleOutcome { model := "gpt-4" }
        (Except.ok { output := [], usage := none }) = Except.error e ∧
      e.statusCode = 500 ∧ e.provider = some LLMProvider.openai ∧
      e.name = "LLMError" :=
  C9_unsupported_response_shape { model := "gpt-4" } { output := [], usage := none } rfl

/-- C7 (amended): when a schema was requested and a text content part was
extracted, the call succeeds; if the text is not valid JSON the
structured-output field is left unset (the text is still returned) and
`generateStructured` yields `{}`; if the text is valid JSON,
`generateStructured` yields the parsed value — except that a parsed JSON
`null` is also replaced by `{}` by the nullish-coalescing fallback. -/
theorem C7_structured_parse (config : LLMConfig) (completion : Completion)
    (text : String) (restC : List OutContent) (restO : List OutItem)
    (hout : completion.output =
      OutItem.message (OutContent.outputText text :: restC) :: restO)
    (hschema : config.schema.isSome = true) :
    ∃ r, openaiHandleOutcome config (Except.ok completion) = Except.ok r ∧
      r.content = text ∧
      (jsonParse text = none → r.structuredOutput = none ∧
        generateStructuredResult r = Json.obj JsonFields.nil) ∧
      (∀ j, jsonParse text = some j → r.structuredOutput = some j ∧
        generateStructuredResult r =
          (match j with
           | Json.null => Json.obj JsonFields.nil
           | _ => j)) := by
  rcases completion with ⟨output, usage⟩
  dsimp at hout
  subst hout
  refine ⟨_, rfl, rfl, ?_, ?_⟩
  · intro hp
    have hso : (if config.schema.isSome ∧ text ≠ "" then jsonParse text else none)
        = none := by
      by_cases hcond : config.schema.isSome ∧ text ≠ ""
      · rw [if_pos hcond, hp]
      · rw [if_neg hcond]
    refine ⟨hso, ?_⟩
    show generateStructuredResult _ = _
    rw [generateStructuredResult]
    dsimp only
    rw [hso]
  · intro j hp
    have hne : text ≠ "" := by
      intro h
      rw [h] at hp
      have hnone : jsonParse "" = none := rfl
      rw [hnone] at hp
      exact Option.noConfusion hp
    have hso : (if config.schema.isSome ∧ text ≠ "" then jsonParse text else none)
        = some j := by
      rw [if_pos ⟨hschema, hne⟩, hp]
    refine ⟨hso, ?_⟩
    show generateStructuredResult _ = _
    rw [generateStructuredResult]
    dsimp only
    rw [hso]
    cases j <;> rfl

/-- Witness for C7 at a concrete run: text `null` parses, the structured
field is set to JSON null, and `generateStructured` returns `{}`. -/
theorem C7_structured_parse_witness :
    ∃ r, openaiHandleOutcome c7cfg (Except.ok c7completion) = Except.ok r ∧
      r.content = "null" ∧
      (jsonParse "null" = none → r.structuredOutput = none ∧
        generateStructuredResult r = Json.obj JsonFields.nil) ∧
      (∀ j, jsonParse "null" = some j → r.structuredOutput = some j ∧
        generateStructuredResult r =
          (match j with
           | Json.null => Json.obj JsonFields.nil
           | _ => j)) :=
  C7_structured_parse c7cfg c7completion "null" [] [] rfl rfl

/-- Counterexample for C7 as stated: the text `null` is valid JSON, the call
succeeds with structured output JSON null, yet `generateStructured` returns
`{}` and not the parsed value `null`. -/
theorem C7_counterexample :
    jsonParse "null" = some Json.null ∧
    openaiHandleOutcome c7cfg (Except.ok c7completion) = Except.ok c7resp ∧
    generateStructuredResult c7resp = Json.obj JsonFields.nil ∧
    Json.obj JsonFields.nil ≠ Json.null :=
  ⟨rfl, rfl, rfl, fun h => Json.noConfusion h⟩

/-! ### Heap lemmas for the `getConfig` claims -/

theorem heapGet_lt_length :
    ∀ (h : JHeap) (a : Nat) (nd : JNode), heapGet h a = some nd → a < h.length
  | [], _, _, hg => Option.noConfusion hg
  | _ :: _, 0, _, _ => Nat.succ_pos _
  | _ :: t, Nat.succ a, nd, hg => Nat.succ_lt_succ (heapGet_lt_length t a nd hg)

theorem heapGet_append_lt :
    ∀ (h t : JHeap) (a : Nat), a < h.length → heapGet (h ++ t) a = heapGet h a
  | [], _, _, ha => absurd ha (Nat.not_lt_zero _)
  | _ :: _, _, 0, _ => rfl
  | _ :: h, t, Nat.succ a, ha => heapGet_append_lt h t a (Nat.lt_of_succ_lt_succ ha)

theorem heapGet_append_length :
    ∀ (h : JHeap) (nd : JNode), heapGet (h ++ [nd]) h.length = some nd
  | [], _ => rfl
  | _ :: h, nd => heapGet_append_length h nd

theorem heapGet_setNode_ne :
    ∀ (h : JHeap) (a b : Nat) (nd : JNode), b ≠ a →
      heapGet (setNode h a nd) b = heapGet h b
  | [], _, _, _, _ => rfl
  | _ :: _, 0, 0, _, hne => absurd rfl hne
  | _ :: _, 0, Nat.succ _, _, _ => rfl
  | _ :: _, Nat.succ _, 0, _, _ => rfl
  | _ :: t, Nat.succ a, Nat.succ b, nd, hne =>
      heapGet_setNode_ne t a b nd (fun hh => hne (congrArg Nat.succ hh))

theorem heapGet_setField_ne (h : JHeap) (a : Nat) (k : String) (v : JsVal)
    (b : Nat) (hne : b ≠ a) : heapGet (setField h a k v) b = heapGet h b := by
  unfold setField
  cases hg : heapGet h a with
  | none => rfl
  | some nd =>
    cases nd with
    | jobj fields => exact heapGet_setNode_ne h a b _ hne
    | jarr _ => rfl

/-- Counterexample for C5 as stated: `getConfig` is a *shallow* copy, so a
caller that reaches the shared `traceMetadata` object through the returned
copy and mutates it changes what the dispatcher subsequently observes: the
nested `userId` the dispatcher reads flips from `"u1"` to `"evil"`. -/
theorem C5_counterexample :
    getConfigShallow cH5 1 = some (cH5b, 2) ∧
    getFieldOf cH5b 2 "traceMetadata" = some (JsVal.ref 0) ∧
    readPath2 cH5 1 "traceMetadata" "userId" = some (JsVal.prim (JsPrim.strv "u1")) ∧
    readPath2 (setField cH5b 0 "userId" (JsVal.prim (JsPrim.strv "evil"))) 1
        "traceMetadata" "userId" = some (JsVal.prim (JsPrim.strv "evil")) ∧
    some (JsVal.prim (JsPrim.strv "evil")) ≠ some (JsVal.prim (JsPrim.strv "u1")) :=
  ⟨by decide, by decide, by decide, by decide, by decide⟩

/-- C5 (amended): the object returned by `getConfig()` is a fresh node, so
*top-level* mutations of the returned object never affect the dispatcher's
stored configuration (every pre-existing heap node, in particular the stored
configuration object, is unchanged); only mutations reaching *nested* objects
through the shared references of the shallow copy are visible to the
dispatcher. -/
theorem C5_amended_shallow_copy (h : JHeap) (c : Nat) (h2 : JHeap) (a : Nat)
    (hc : getConfigShallow h c = some (h2, a)) (k : String) (v : JsVal) :
    a = h.length ∧
    (∀ b, b < h.length → heapGet (setField h2 a k v) b = heapGet h b) ∧
    heapGet (setField h2 a k v) c = heapGet h c := by
  unfold getConfigShallow at hc
  cases hg : heapGet h c with
  | none => rw [hg] at hc; exact Option.noConfusion hc
  | some nd =>
    cases nd with
    | jarr _ => rw [hg] at hc; exact Option.noConfusion hc
    | jobj fields =>
      rw [hg] at hc
      have hh2 : h ++ [JNode.jobj fields] = h2 := congrArg Prod.fst (Option.some.inj hc)
      have ha : h.length = a := congrArg Prod.snd (Option.some.inj hc)
      subst hh2
      subst ha
      have hb : ∀ b, b < h.length →
          heapGet (setField (h ++ [JNode.jobj fields]) h.length k v) b = heapGet h b := by
        intro b hblt
        rw [heapGet_setField_ne _ _ _ _ _ (Nat.ne_of_lt hblt)]
        exact heapGet_append_lt h _ b hblt
      exact ⟨rfl, hb, (hb c (heapGet_lt_length h c _ hg)).trans hg⟩

/-- Witness for C5's amended theorem at the concrete heap `cH5`: a top-level
write on the copy leaves the stored configuration node unchanged. -/
theorem C5_amended_shallow_copy_witness :
    heapGet (setField cH5b 2 "model" (JsVal.prim (JsPrim.strv "other"))) 1 =
      heapGet cH5 1 :=
  (C5_amended_shallow_copy cH5 1 cH5b 2 rfl "model"
    (JsVal.prim (JsPrim.strv "other"))).2.2

/-! ### Lemmas about the pure schema normalization -/

theorem jLookup_fieldsAppend :
    ∀ (l1 l2 : JsonFields) (key : String),
      jLookup (fieldsAppend l1 l2) key =
        (match jLookup l1 key with
         | some v => some v
         | none => jLookup l2 key)
  | JsonFields.nil, l2, key => rfl
  | JsonFields.cons k v tl, l2, key => by
    by_cases hk : k = key
    · simp [fieldsAppend, jLookup, hk]
    · simp only [fieldsAppend, jLookup, if_neg hk]
      exact jLookup_fieldsAppend tl l2 key

theorem jLookup_processFields :
    ∀ (l : JsonFields) (key : String),
      jLookup (processFields l) key = (jLookup l key).map (fieldTransform key)
  | JsonFields.nil, _ => rfl
  | JsonFields.cons k v tl, key => by
    by_cases hk : k = key
    · subst hk
      simp [processFields, jLookup, fieldTransform]
    · simp [processFields, jLookup, hk, jLookup_processFields tl key]

theorem jLookup_processPropFields :
    ∀ (l : JsonFields) (key : String),
      jLookup (processPropFields l) key = (jLookup l key).map processSchema
  | JsonFields.nil, _ => rfl
  | JsonFields.cons k v tl, key => by
    by_cases hk : k = key
    · subst hk
      simp [processPropFields, jLookup]
    · simp [processPropFields, jLookup, hk, jLookup_processPropFields tl key]

theorem jsonListGet_processList :
    ∀ (xs : JsonList) (i : Nat),
      jsonListGet (processList xs) i = (jsonListGet xs i).map processSchema
  | JsonList.nil, _ => rfl
  | JsonList.cons _ _, 0 => rfl
  | JsonList.cons _ tl, Nat.succ i => jsonListGet_processList tl i

/-- A falsy JSON value is not an object, so `processSchema` leaves it
unchanged. -/
theorem processSchema_falsy : ∀ (v : Json), jTruthy v = false → processSchema v = v := by
  intro v hv
  cases v <;> first | rfl | simp [jTruthy] at hv

theorem fieldTransform_items (v : Json) : fieldTransform "items" v = processSchema v := by
  show (if ("items" : String) = "properties" then _
        else if ("items" : String) = "items" then (if jTruthy v then processSchema v else v)
        else _) = _
  rw [if_neg (by decide), if_pos rfl]
  cases hv : jTruthy v with
  | true => rfl
  | false => exact (processSchema_falsy v hv).symm

theorem fieldTransform_union (k : String)
    (hk : k = "anyOf" ∨ k = "allOf" ∨ k = "oneOf") (v : Json) :
    fieldTransform k v = processUnion v := by
  rcases hk with rfl | rfl | rfl <;> rfl

theorem fieldTransform_other (k : String) (h1 : k ≠ "properties") (h2 : k ≠ "items")
    (h3 : k ≠ "anyOf") (h4 : k ≠ "allOf") (h5 : k ≠ "oneOf") (v : Json) :
    fieldTransform k v = v := by
  simp [fieldTransform, h1, h2, h3, h4, h5]

/-- Looking up any key other than `additionalProperties` in a processed
object node sees the processed original field (the appended
`additionalProperties` entry is invisible to such keys). -/
theorem jLookup_processSchema_obj (fields : JsonFields) (key : String)
    (hkey : key ≠ "additionalProperties") :
    jLookup (objFieldsOf (processSchema (Json.obj fields))) key =
      (jLookup fields key).map (fieldTransform key) := by
  show jLookup (fieldsAppend (processFields fields)
    (if isTypeObject fields && !(hasField fields "additionalProperties")
     then JsonFields.cons "additionalProperties" (Json.bool false) JsonFields.nil
     else JsonFields.nil)) key = _
  rw [jLookup_fieldsAppend, jLookup_processFields]
  cases hp : jLookup fields key with
  | some v => rfl
  | none =>
    show jLookup (if isTypeObject fields && !(hasField fields "additionalProperties")
      then JsonFields.cons "additionalProperties" (Json.bool false) JsonFields.nil
      else JsonFields.nil) key = none
    cases isTypeObject fields && !(hasField fields "additionalProperties") with
    | false => rfl
    | true =>
      show (if ("additionalProperties" : String) = key then some (Json.bool false)
            else jLookup JsonFields.nil key) = none
      rw [if_neg (fun h => hkey h.symm)]
      rfl

theorem getChild_processSchema (j : Json) (st : SchemaStep) :
    getChild (processSchema j) st = (getChild j st).map processSchema := by
  cases st with
  | propStep name =>
    cases j with
    | obj fields =>
      have hl := jLookup_processSchema_obj fields "properties" (by decide)
      show (match jLookup (objFieldsOf (processSchema (Json.obj fields))) "properties" with
            | some (Json.obj pf) => jLookup pf name
            | _ => none) =
        (match jLookup fields "properties" with
         | some (Json.obj pf) => jLookup pf name
         | _ => none).map processSchema
      rw [hl]
      cases hp : jLookup fields "properties" with
      | none => rfl
      | some v =>
        cases v with
        | obj pf =>
          show jLookup (processPropFields pf) name = (jLookup pf name).map processSchema
          exact jLookup_processPropFields pf name
        | null => rfl
        | bool b => rfl
        | num m e => rfl
        | str s => rfl
        | arr xs => rfl
    | null => rfl
    | bool b => rfl
    | num m e => rfl
    | str s => rfl
    | arr xs => rfl
  | itemsStep =>
    cases j with
    | obj fields =>
      have hl := jLookup_processSchema_obj fields "items" (by decide)
      show jLookup (objFieldsOf (processSchema (Json.obj fields))) "items" =
        (jLookup fields "items").map processSchema
      rw [hl]
      cases hp : jLookup fields "items" with
      | none => rfl
      | some v =>
        show some (fieldTransform "items" v) = some (processSchema v)
        rw [fieldTransform_items]
    | null => rfl
    | bool b => rfl
    | num m e => rfl
    | str s => rfl
    | arr xs => rfl
  | unionStep key idx =>
    by_cases hcond : (key = "anyOf" || key = "allOf" || key = "oneOf") = true
    · have hkd : key = "anyOf" ∨ key = "allOf" ∨ key = "oneOf" := by
        rcases Bool.or_eq_true_iff.mp hcond with h | h
        · rcases Bool.or_eq_true_iff.mp h with h1 | h1
          · exact Or.inl (by simpa using h1)
          · exact Or.inr (Or.inl (by simpa using h1))
        · exact Or.inr (Or.inr (by simpa using h))
      have hkap : key ≠ "additionalProperties" := by
        rcases hkd with rfl | rfl | rfl <;> decide
      cases j with
      | obj fields =>
        have hl := jLookup_processSchema_obj fields key hkap
        show (if key = "anyOf" || key = "allOf" || key = "oneOf" then
              (match jLookup (objFieldsOf (processSchema (Json.obj fields))) key with
               | some (Json.arr xs) => jsonListGet xs idx
               | _ => none)
             else none) = _
        rw [if_pos hcond, hl]
        show _ = (if key = "anyOf" || key = "allOf" || key = "oneOf" then
              (match jLookup fields key with
               | some (Json.arr xs) => jsonListGet xs idx
               | _ => none)
             else none).map processSchema
        rw [if_pos hcond]
        cases hp : jLookup fields key with
        | none => rfl
        | some v =>
          rw [Option.map_some']
          rw [fieldTransform_union key hkd]
          cases v with
          | arr xs =>
            show jsonListGet (processList xs) idx = (jsonListGet xs idx).map processSchema
            exact jsonListGet_processList xs idx
          | null => rfl
          | bool b => rfl
          | num m e => rfl
          | str s => rfl
          | obj pf => rfl
      | null => simp [getChild, hcond, processSchema]
      | bool b => simp [getChild, hcond, processSchema]
      | num m e => simp [getChild, hcond, processSchema]
      | str s => simp [getChild, hcond, processSchema]
      | arr xs => simp [getChild, hcond, processSchema]
    · have hcond2 : (key = "anyOf" || key = "allOf" || key = "oneOf") = false :=
        Bool.eq_false_iff.mpr hcond
      show (if key = "anyOf" || key = "allOf" || key = "oneOf" then _ else none) =
        ((if key = "anyOf" || key = "allOf" || key = "oneOf" then _ else none) :
          Option Json).map processSchema
      rw [hcond2]
      rfl

theorem getNode_processSchema (p : List SchemaStep) :
    ∀ j, getNode (processSchema j) p = (getNode j p).map processSchema := by
  induction p with
  | nil => intro j; rfl
  | cons st p ih =>
    intro j
    show (match getChild (processSchema j) st with
          | some c => getNode c p
          | none => none) =
      (match getChild j st with
       | some c => getNode c p
       | none => none).map processSchema
    rw [getChild_processSchema]
    cases hc : getChild j st with
    | none => rfl
    | some c => exact ih c

theorem processSchema_obj_ap_new (fields : JsonFields)
    (hty : isTypeObject fields = true)
    (hap : hasField fields "additionalProperties" = false) :
    jLookup (objFieldsOf (processSchema (Json.obj fields))) "additionalProperties" =
      some (Json.bool false) := by
  have hnone : jLookup fields "additionalProperties" = none := by
    cases h : jLookup fields "additionalProperties" with
    | none => rfl
    | some v => rw [hasField, h] at hap; exact Bool.noConfusion hap
  show jLookup (fieldsAppend (processFields fields)
    (if isTypeObject fields && !(hasField fields "additionalProperties")
     then JsonFields.cons "additionalProperties" (Json.bool false) JsonFields.nil
     else JsonFields.nil)) "additionalProperties" = _
  rw [jLookup_fieldsAppend, jLookup_processFields, hnone, hty, hap]
  rfl

theorem processSchema_obj_ap_kept (fields : JsonFields) (v : Json)
    (hv : jLookup fields "additionalProperties" = some v) :
    jLookup (objFieldsOf (processSchema (Json.obj fields))) "additionalProperties" =
      some v := by
  show jLookup (fieldsAppend (processFields fields)
    (if isTypeObject fields && !(hasField fields "additionalProperties")
     then JsonFields.cons "additionalProperties" (Json.bool false) JsonFields.nil
     else JsonFields.nil)) "additionalProperties" = _
  rw [jLookup_fieldsAppend, jLookup_processFields, hv]
  rfl

theorem processSchema_obj_other_key (fields : JsonFields) (k : String)
    (h1 : k ≠ "properties") (h2 : k ≠ "items") (h3 : k ≠ "anyOf") (h4 : k ≠ "allOf")
    (h5 : k ≠ "oneOf") (h6 : k ≠ "additionalProperties") :
    jLookup (objFieldsOf (processSchema (Json.obj fields))) k = jLookup fields k := by
  rw [jLookup_processSchema_obj fields k h6]
  cases hp : jLookup fields k with
  | none => rfl
  | some v =>
    rw [Option.map_some', fieldTransform_other k h1 h2 h3 h4 h5]

/-- C1: every sub-schema node of `normalizeSchemaForStrictMode`'s output that
is reachable through `properties` values, `items`, and `anyOf`/`allOf`/`oneOf`
elements is the processed image of the input node at the same path; at a node
with `type: "object"` the output has `additionalProperties: false` when the
input node did not declare that key, and the input's declared value when it
did; and every key other than the recursion keys and `additionalProperties`
passes through with its value unchanged. -/
theorem C1_schema_normalization (s : Json) (p : List SchemaStep) (m : Json)
    (hm : getNode (normalizeSchemaForStrictMode s) p = some m) :
    ∃ n, getNode s p = some n ∧ m = processSchema n ∧
      (∀ fields, n = Json.obj fields →
        (isTypeObject fields = true → hasField fields "additionalProperties" = false →
          jLookup (objFieldsOf m) "additionalProperties" = some (Json.bool false)) ∧
        (∀ v, jLookup fields "additionalProperties" = some v →
          jLookup (objFieldsOf m) "additionalProperties" = some v) ∧
        (∀ k, k ≠ "properties" → k ≠ "items" → k ≠ "anyOf" → k ≠ "allOf" →
          k ≠ "oneOf" → k ≠ "additionalProperties" →
          jLookup (objFieldsOf m) k = jLookup fields k)) := by
  rw [normalizeSchemaForStrictMode, getNode_processSchema] at hm
  rcases Option.map_eq_some'.mp hm with ⟨n, hn, hmn⟩
  subst hmn
  refine ⟨n, hn, rfl, ?_⟩
  rintro fields rfl
  exact ⟨processSchema_obj_ap_new fields, processSchema_obj_ap_kept fields,
         processSchema_obj_other_key fields⟩

/-- Witness for C1 at the concrete nested schema `exSchema` and the path
`properties.a`. -/
theorem C1_schema_normalization_witness :
    ∃ n, getNode exSchema [SchemaStep.propStep "a"] = some n ∧ exM = processSchema n ∧
      (∀ fields, n = Json.obj fields →
        (isTypeObject fields = true → hasField fields "additionalProperties" = false →
          jLookup (objFieldsOf exM) "additionalProperties" = some (Json.bool false)) ∧
        (∀ v, jLookup fields "additionalProperties" = some v →
          jLookup (objFieldsOf exM) "additionalProperties" = some v) ∧
        (∀ k, k ≠ "properties" → k ≠ "items" → k ≠ "anyOf" → k ≠ "allOf" →
          k ≠ "oneOf" → k ≠ "additionalProperties" →
          jLookup (objFieldsOf exM) k = jLookup fields k)) :=
  C1_schema_normalization exSchema [SchemaStep.propStep "a"] exM rfl

/-! ### Heap lemmas for the schema non-mutation claim -/

theorem sameBelow_refl (n : Nat) (h : JHeap) : sameBelow n h h := fun _ _ => rfl

theorem sameBelow_trans {n : Nat} {h1 h2 h3 : JHeap}
    (a12 : sameBelow n h1 h2) (a23 : sameBelow n h2 h3) : sameBelow n h1 h3 :=
  fun a ha => (a23 a ha).trans (a12 a ha)

theorem setNode_length : ∀ (h : JHeap) (a : Nat) (nd : JNode),
    (setNode h a nd).length = h.length
  | [], _, _ => rfl
  | _ :: _, 0, _ => rfl
  | _ :: t, Nat.succ a, nd => congrArg Nat.succ (setNode_length t a nd)

theorem heapGet_setNode_self : ∀ (h : JHeap) (a : Nat) (nd : JNode),
    a < h.length → heapGet (setNode h a nd) a = some nd
  | [], _, _, ha => absurd ha (Nat.not_lt_zero _)
  | _ :: _, 0, _, _ => rfl
  | _ :: t, Nat.succ a, nd, ha => heapGet_setNode_self t a nd (Nat.lt_of_succ_lt_succ ha)

theorem heapGet_concat_some (h : JHeap) (x : JNode) (a : Nat) (nd : JNode)
    (hg : heapGet (h ++ [x]) a = some nd) :
    heapGet h a = some nd ∨ (a = h.length ∧ nd = x) := by
  rcases Nat.lt_trichotomy a h.length with hlt | heq | hgt
  · left
    rw [← heapGet_append_lt h [x] a hlt]
    exact hg
  · right
    refine ⟨heq, ?_⟩
    subst heq
    rw [heapGet_append_length] at hg
    exact (Option.some.inj hg).symm
  · exfalso
    have hlen := heapGet_lt_length _ _ _ hg
    rw [List.length_append] at hlen
    simp at hlen
    omega

theorem valsGe_of_fieldsGe (n : Nat) (fields : List (String × JsVal))
    (hf : fieldsGe n fields) : valsGe n (fields.map Prod.snd) := by
  intro v hv
  rcases List.mem_map.mp hv with ⟨kv, hkv, rfl⟩
  exact hf kv hkv

theorem lookupV_valGe (n : Nat) : ∀ (fields : List (String × JsVal)) (k : String)
    (v : JsVal), fieldsGe n fields → lookupV fields k = some v → valGe n v
  | [], _, _, _, hl => Option.noConfusion hl
  | (k2, v2) :: tl, k, v, hf, hl => by
    simp only [lookupV] at hl
    by_cases hk : k2 = k
    · rw [if_pos hk] at hl
      cases Option.some.inj hl
      exact hf (k2, v2) (List.mem_cons_self _ _)
    · rw [if_neg hk] at hl
      exact lookupV_valGe n tl k v (fun kv hkv => hf kv (List.mem_cons_of_mem _ hkv)) hl

theorem getFieldOf_valGe (n : Nat) (h : JHeap) (a : Nat) (k : String) (v : JsVal)
    (hna : n ≤ a) (hc : heapClosedGe n h) (hg : getFieldOf h a k = some v) :
    valGe n v := by
  unfold getFieldOf at hg
  cases hn : heapGet h a with
  | none => rw [hn] at hg; exact Option.noConfusion hg
  | some nd =>
    rw [hn] at hg
    cases nd with
    | jarr _ => exact Option.noConfusion hg
    | jobj fields => exact lookupV_valGe n fields k v (hc a _ hna hn) hg

theorem propsTargets_ge (n : Nat) (h : JHeap) (a : Nat) (hna : n ≤ a)
    (hc : heapClosedGe n h) : valsGe n (propsTargets h a) := by
  unfold propsTargets
  cases hgf : getFieldOf h a "properties" with
  | none => intro v hv; simp at hv
  | some fv =>
    cases fv with
    | prim p => intro v hv; simp at hv
    | ref pa =>
      have hpa : n ≤ pa := getFieldOf_valGe n h a _ _ hna hc hgf
      dsimp only
      cases hn : heapGet h pa with
      | none => intro v hv; simp at hv
      | some nd =>
        cases nd with
        | jobj pf => exact valsGe_of_fieldsGe n pf (hc pa _ hpa hn)
        | jarr xs => exact hc pa _ hpa hn

theorem itemsTarget_ge (n : Nat) (h : JHeap) (a : Nat) (hna : n ≤ a)
    (hc : heapClosedGe n h) : valsGe n (itemsTarget h a) := by
  unfold itemsTarget
  cases hgf : getFieldOf h a "items" with
  | none => intro v hv; simp at hv
  | some fv =>
    cases hb : valTruthyM fv with
    | false => simp only [hb]; intro v hv; simp at hv
    | true =>
      simp only [hb]
      intro v hv
      simp only [if_true, List.mem_singleton] at hv
      subst hv
      exact getFieldOf_valGe n h a _ _ hna hc hgf

theorem unionTargets_ge (n : Nat) (h : JHeap) (a : Nat) (key : String) (hna : n ≤ a)
    (hc : heapClosedGe n h) : valsGe n (unionTargets h a key) := by
  unfold unionTargets
  cases hgf : getFieldOf h a key with
  | none => intro v hv; simp at hv
  | some fv =>
    cases fv with
    | prim p => intro v hv; simp at hv
    | ref ua =>
      have hua : n ≤ ua := getFieldOf_valGe n h a _ _ hna hc hgf
      dsimp only
      cases hn : heapGet h ua with
      | none => intro v hv; simp at hv
      | some nd =>
        cases nd with
        | jobj pf => intro v hv; simp at hv
        | jarr xs => exact hc ua _ hua hn

theorem setKey_fieldsGe (n : Nat) : ∀ (fields : List (String × JsVal)) (k : String)
    (v : JsVal), fieldsGe n fields → valGe n v → fieldsGe n (setKey fields k v)
  | [], k, v, _, hv => by
    intro kv hkv
    simp only [setKey, List.mem_singleton] at hkv
    subst hkv
    exact hv
  | (k2, v2) :: tl, k, v, hf, hv => by
    simp only [setKey]
    by_cases hk : k2 = k
    · rw [if_pos hk]
      intro kv hkv
      rcases List.mem_cons.mp hkv with rfl | hkv
      · exact hv
      · exact hf kv (List.mem_cons_of_mem _ hkv)
    · rw [if_neg hk]
      intro kv hkv
      rcases List.mem_cons.mp hkv with rfl | hkv
      · exact hf (k2, v2) (List.mem_cons_self _ _)
      · exact setKey_fieldsGe n tl k v
          (fun kv2 hkv2 => hf kv2 (List.mem_cons_of_mem _ hkv2)) hv kv hkv

theorem setField_frame (h : JHeap) (a : Nat) (k : String) (v : JsVal) (n : Nat)
    (hna : n ≤ a) (hc : heapClosedGe n h) (hv : valGe n v) :
    sameBelow n h (setField h a k v) ∧ heapClosedGe n (setField h a k v) := by
  unfold setField
  cases hg : heapGet h a with
  | none => exact ⟨sameBelow_refl n h, hc⟩
  | some nd =>
    cases nd with
    | jarr _ => exact ⟨sameBelow_refl n h, hc⟩
    | jobj fields =>
      constructor
      · intro b hb
        exact heapGet_setNode_ne h a b _ (Nat.ne_of_lt (Nat.lt_of_lt_of_le hb hna))
      · intro a2 nd2 hna2 hg2
        by_cases hab : a2 = a
        · subst hab
          have halen : a2 < h.length := heapGet_lt_length h a2 _ hg
          rw [heapGet_setNode_self h a2 _ halen] at hg2
          cases Option.some.inj hg2
          exact setKey_fieldsGe n fields k v (hc a2 _ hna2 hg) hv
        · rw [heapGet_setNode_ne h a a2 _ hab] at hg2
          exact hc a2 nd2 hna2 hg2

theorem stepClose_frame (h : JHeap) (a : Nat) (n : Nat) (hna : n ≤ a)
    (hc : heapClosedGe n h) :
    sameBelow n h (stepClose h a) ∧ heapClosedGe n (stepClose h a) := by
  unfold stepClose
  cases hg : heapGet h a with
  | none => exact ⟨sameBelow_refl n h, hc⟩
  | some nd =>
    cases nd with
    | jarr _ => exact ⟨sameBelow_refl n h, hc⟩
    | jobj fields =>
      dsimp only
      by_cases hcond :
          (isTypeObjectV fields && (lookupV fields "additionalProperties").isNone) = true
      · rw [if_pos hcond]
        exact setField_frame h a _ _ n hna hc trivial
      · rw [if_neg hcond]
        exact ⟨sameBelow_refl n h, hc⟩

mutual

theorem allocJson_spec : ∀ (h : JHeap) (j : Json) (n : Nat),
    n ≤ h.length → heapClosedGe n h →
    (∃ t, (allocJson h j).1 = h ++ t) ∧
    n ≤ (allocJson h j).1.length ∧
    heapClosedGe n (allocJson h j).1 ∧
    valGe n (allocJson h j).2
  | h, Json.null, n, hn, hc => ⟨⟨[], (List.append_nil h).symm⟩, hn, hc, trivial⟩
  | h, Json.bool _, n, hn, hc => ⟨⟨[], (List.append_nil h).symm⟩, hn, hc, trivial⟩
  | h, Json.num _ _, n, hn, hc => ⟨⟨[], (List.append_nil h).symm⟩, hn, hc, trivial⟩
  | h, Json.str _, n, hn, hc => ⟨⟨[], (List.append_nil h).symm⟩, hn, hc, trivial⟩
  | h, Json.arr xs, n, hn, hc => by
    obtain ⟨⟨t1, ht1⟩, hlen1, hc1, hvs⟩ := allocElems_spec h xs n hn hc
    refine ⟨⟨t1 ++ [JNode.jarr (allocElems h xs).2], ?_⟩, ?_, ?_, ?_⟩
    · show (allocElems h xs).1 ++ [JNode.jarr (allocElems h xs).2] = _
      rw [ht1, List.append_assoc]
    · show n ≤ ((allocElems h xs).1 ++ [JNode.jarr (allocElems h xs).2]).length
      rw [List.length_append]
      omega
    · intro a nd hna hg
      rcases heapGet_concat_some _ _ _ _ hg with hg2 | ⟨_, rfl⟩
      · exact hc1 a nd hna hg2
      · exact hvs
    · show n ≤ (allocElems h xs).1.length
      exact hlen1
  | h, Json.obj fs, n, hn, hc => by
    obtain ⟨⟨t1, ht1⟩, hlen1, hc1, hfs⟩ := allocFlds_spec h fs n hn hc
    refine ⟨⟨t1 ++ [JNode.jobj (allocFlds h fs).2], ?_⟩, ?_, ?_, ?_⟩
    · show (allocFlds h fs).1 ++ [JNode.jobj (allocFlds h fs).2] = _
      rw [ht1, List.append_assoc]
    · show n ≤ ((allocFlds h fs).1 ++ [JNode.jobj (allocFlds h fs).2]).length
      rw [List.length_append]
      omega
    · intro a nd hna hg
      rcases heapGet_concat_some _ _ _ _ hg with hg2 | ⟨_, rfl⟩
      · exact hc1 a nd hna hg2
      · exact hfs
    · show n ≤ (allocFlds h fs).1.length
      exact hlen1

theorem allocElems_spec : ∀ (h : JHeap) (xs : JsonList) (n : Nat),
    n ≤ h.length → heapClosedGe n h →
    (∃ t, (allocElems h xs).1 = h ++ t) ∧
    n ≤ (allocElems h xs).1.length ∧
    heapClosedGe n (allocElems h xs).1 ∧
    valsGe n (allocElems h xs).2
  | h, JsonList.nil, n, hn, hc =>
    ⟨⟨[], (List.append_nil h).symm⟩, hn, hc, fun v hv => absurd hv (List.not_mem_nil v)⟩
  | h, JsonList.cons x tl, n, hn, hc => by
    obtain ⟨⟨t1, ht1⟩, hlen1, hc1, hv1⟩ := allocJson_spec h x n hn hc
    obtain ⟨⟨t2, ht2⟩, hlen2, hc2, hvs2⟩ :=
      allocElems_spec (allocJson h x).1 tl n hlen1 hc1
    refine ⟨⟨t1 ++ t2, ?_⟩, hlen2, hc2, ?_⟩
    · show (allocElems (allocJson h x).1 tl).1 = _
      rw [ht2, ht1, List.append_assoc]
    · show valsGe n ((allocJson h x).2 :: (allocElems (allocJson h x).1 tl).2)
      intro v hv
      rcases List.mem_cons.mp hv with rfl | hv
      · exact hv1
      · exact hvs2 v hv

theorem allocFlds_spec : ∀ (h : JHeap) (fs : JsonFields) (n : Nat),
    n ≤ h.length → heapClosedGe n h →
    (∃ t, (allocFlds h fs).1 = h ++ t) ∧
    n ≤ (allocFlds h fs).1.length ∧
    heapClosedGe n (allocFlds h fs).1 ∧
    fieldsGe n (allocFlds h fs).2
  | h, JsonFields.nil, n, hn, hc =>
    ⟨⟨[], (List.append_nil h).symm⟩, hn, hc, fun kv hkv => absurd hkv (List.not_mem_nil kv)⟩
  | h, JsonFields.cons k x tl, n, hn, hc => by
    obtain ⟨⟨t1, ht1⟩, hlen1, hc1, hv1⟩ := allocJson_spec h x n hn hc
    obtain ⟨⟨t2, ht2⟩, hlen2, hc2, hfs2⟩ :=
      allocFlds_spec (allocJson h x).1 tl n hlen1 hc1
    refine ⟨⟨t1 ++ t2, ?_⟩, hlen2, hc2, ?_⟩
    · show (allocFlds (allocJson h x).1 tl).1 = _
      rw [ht2, ht1, List.append_assoc]
    · show fieldsGe n ((k, (allocJson h x).2) :: (allocFlds (allocJson h x).1 tl).2)
      intro kv hkv
      rcases List.mem_cons.mp hkv with rfl | hkv
      · exact hv1
      · exact hfs2 kv hkv

end

mutual

theorem processSchemaMut_frame : ∀ (fuel : Nat) (h : JHeap) (v : JsVal) (n : Nat),
    valGe n v → heapClosedGe n h →
    sameBelow n h (processSchemaMut fuel h v) ∧
    heapClosedGe n (processSchemaMut fuel h v)
  | 0, h, v, n => by
    intro _ hc
    cases v <;> exact ⟨sameBelow_refl n h, hc⟩
  | Nat.succ fuel, h, JsVal.prim p, n => by
    intro _ hc
    exact ⟨sameBelow_refl n h, hc⟩
  | Nat.succ fuel, h, JsVal.ref a, n => by
    intro hv hc
    have hna : n ≤ a := hv
    unfold processSchemaMut
    cases hg : heapGet h a with
    | none => exact ⟨sameBelow_refl n h, hc⟩
    | some nd =>
      cases nd with
      | jarr _ => exact ⟨sameBelow_refl n h, hc⟩
      | jobj fields =>
        dsimp only
        obtain ⟨hs1, hc1⟩ := stepClose_frame h a n hna hc
        obtain ⟨hs2, hc2⟩ := processValsMut_frame fuel (stepClose h a)
          (propsTargets (stepClose h a) a) n (propsTargets_ge n _ a hna hc1) hc1
        obtain ⟨hs3, hc3⟩ := processValsMut_frame fuel _
          (itemsTarget (processValsMut fuel (stepClose h a)
            (propsTargets (stepClose h a) a)) a) n
          (itemsTarget_ge n _ a hna hc2) hc2
        obtain ⟨hs4, hc4⟩ := processValsMut_frame fuel _ (unionTargets _ a "anyOf") n
          (unionTargets_ge n _ a "anyOf" hna hc3) hc3
        obtain ⟨hs5, hc5⟩ := processValsMut_frame fuel _ (unionTargets _ a "allOf") n
          (unionTargets_ge n _ a "allOf" hna hc4) hc4
        obtain ⟨hs6, hc6⟩ := processValsMut_frame fuel _ (unionTargets _ a "oneOf") n
          (unionTargets_ge n _ a "oneOf" hna hc5) hc5
        exact ⟨sameBelow_trans hs1 (sameBelow_trans hs2 (sameBelow_trans hs3
          (sameBelow_trans hs4 (sameBelow_trans hs5 hs6)))), hc6⟩

theorem processValsMut_frame : ∀ (fuel : Nat) (h : JHeap) (l : List JsVal) (n : Nat),
    valsGe n l → heapClosedGe n h →
    sameBelow n h (processValsMut fuel h l) ∧
    heapClosedGe n (processValsMut fuel h l)
  | 0, h, l, n => by
    intro _ hc
    cases l <;> exact ⟨sameBelow_refl n h, hc⟩
  | Nat.succ fuel, h, [], n => by
    intro _ hc
    exact ⟨sameBelow_refl n h, hc⟩
  | Nat.succ fuel, h, v :: vs, n => by
    intro hl hc
    obtain ⟨hs1, hc1⟩ := processSchemaMut_frame fuel h v n
      (hl v (List.mem_cons_self _ _)) hc
    obtain ⟨hs2, hc2⟩ := processValsMut_frame fuel (processSchemaMut fuel h v) vs n
      (fun v2 hv2 => hl v2 (List.mem_cons_of_mem _ hv2)) hc1
    exact ⟨sameBelow_trans hs1 hs2, hc2⟩

end

/-- C6: `normalizeSchemaForStrictMode` works on a deep copy and never mutates
the caller's input: whenever the heap run
`normalizeSchemaMut fuel h v = some (h2, v2)` succeeds, every heap node that
existed before the call — in particular every node of the caller's schema
structure, at every nesting depth — is unchanged in the result heap. -/
theorem C6_no_input_mutation (fuel : Nat) (h : JHeap) (v : JsVal)
    (h2 : JHeap) (v2 : JsVal)
    (hrun : normalizeSchemaMut fuel h v = some (h2, v2)) :
    ∀ a, a < h.length → heapGet h2 a = heapGet h a := by
  unfold normalizeSchemaMut at hrun
  cases hr : readVal fuel h v with
  | none => rw [hr] at hrun; exact Option.noConfusion hrun
  | some j =>
    rw [hr] at hrun
    have hh2 : processSchemaMut fuel (allocJson h j).1 (allocJson h j).2 = h2 :=
      congrArg Prod.fst (Option.some.inj hrun)
    have hvac : heapClosedGe h.length h := by
      intro a nd hna hg
      exact absurd (heapGet_lt_length h a nd hg) (Nat.not_lt.mpr hna)
    obtain ⟨⟨t, ht⟩, _, hclosed, hval⟩ :=
      allocJson_spec h j h.length (Nat.le_refl _) hvac
    obtain ⟨hsb, _⟩ := processSchemaMut_frame fuel (allocJson h j).1
      (allocJson h j).2 h.length hval hclosed
    intro a ha
    rw [← hh2, hsb a ha, ht]
    exact heapGet_append_lt h t a ha

/-- Witness for C6 at a concrete run: normalizing the one-node schema heap
`cH6` leaves the caller's node at address 0 untouched. -/
theorem C6_no_input_mutation_witness : heapGet cH6r 0 = heapGet cH6 0 :=
  C6_no_input_mutation 10 cH6 (JsVal.ref 0) cH6r (JsVal.ref 1) rfl 0 (by decide)
